import Mathlib

/-!
Shallow embedding of `option.go` of the getlantern/tcpinfo package.

Go byte buffers and Go strings are both immutable byte sequences and the
conversions between them are byte-wise copies; we model a buffer as a list of
characters (`Bytes := List Char`) so that a Go string `s` converts to the
buffer `s.data` and back via `String.mk`.  Go's `error` results are modelled
as `Option String` holding the error message (`none` = nil error), matching
the two sentinel errors created with `errors.New` at the top of the file.
The JSON document produced by `Info.MarshalJSON` is modelled structurally:
the `raw` value of the Go code is a `map[string]interface{}`, embedded as an
association list with Go map-assignment semantics (`mapSet` overwrites an
existing key), and the final `json.Marshal(&raw)` step (pure encoding
mechanics, out of scope for the spec) is left out: claims are stated about
the key/value structure of `raw`.
-/

namespace tcpinfo

/-- Structural JSON values, the shape of the document `Info.MarshalJSON`
builds.  `null` is included so that "a field is never emitted as null" is
expressible. -/
inductive JSONValue : Type
  | null : JSONValue
  | str : String → JSONValue
  | num : Int → JSONValue
  | arr : List JSONValue → JSONValue
  | obj : List (String × JSONValue) → JSONValue

/-- Go map assignment `m[k] = v`: overwrite the entry for `k` if present,
otherwise add one. -/
def mapSet (m : List (String × JSONValue)) (k : String) (v : JSONValue) :
    List (String × JSONValue) :=
  match m with
  | [] => [(k, v)]
  | (k', v') :: rest => if k' = k then (k, v) :: rest else (k', v') :: mapSet rest k v

/-- Go map read `m[k]`. -/
def mapGet (m : List (String × JSONValue)) (k : String) : Option JSONValue :=
  match m with
  | [] => none
  | (k', v') :: rest => if k' = k then some v' else mapGet rest k

/-- `type State int` (option.go line 24). -/
abbrev State := Int

def Unknown : State := 0
def Closed : State := 1
def Listen : State := 2
def SynSent : State := 3
def SynReceived : State := 4
def Established : State := 5
def FinWait1 : State := 6
def FinWait2 : State := 7
def CloseWait : State := 8
def LastAck : State := 9
def Closing : State := 10
def TimeWait : State := 11

/-- The `states` map literal of option.go lines 41-54, as an association
list in source order. -/
def states : List (State × String) :=
  [(Unknown, "unknown"),
   (Closed, "closed"),
   (Listen, "listen"),
   (SynSent, "syn-sent"),
   (SynReceived, "syn-received"),
   (Established, "established"),
   (FinWait1, "fin-wait-1"),
   (FinWait2, "fin-wait-2"),
   (CloseWait, "close-wait"),
   (LastAck, "last-ack"),
   (Closing, "closing"),
   (TimeWait, "time-wait")]

/-- Go map read on the `states` map: `s, ok := states[st]`. -/
def statesGet : List (State × String) → State → Option String
  | [], _ => none
  | (k, v) :: rest, st => if k = st then some v else statesGet rest st

/-- `func (st State) String() string` (option.go lines 56-62): the map value
when present, the literal `"<nil>"` otherwise. -/
def State.String (st : State) : String :=
  match statesGet states st with
  | some s => s
  | none => "<nil>"

/-- Go byte buffers, see the module comment. -/
abbrev Bytes := List Char

/-- An element of `Info.Options` / `Info.PeerOptions`.  The Go field type is
the `Option` interface of this package (declared outside option.go); for
`MarshalJSON` only the kind-name string `opt.Kind().String()` and the
option's own serialized form matter, so an option is embedded as that
pair. -/
structure Opt where
  kindName : String
  payload : JSONValue

/-- `type FlowControl struct` (option.go lines 86-88). -/
structure FlowControl where
  ReceiverWindow : Nat

/-- Serialization of a `FlowControl` per its struct tags. -/
def FlowControl.toJSON (fc : FlowControl) : JSONValue :=
  .obj [("rcv_wnd", .num (fc.ReceiverWindow : Int))]

/-- `type CongestionControl struct` (option.go lines 91-95). -/
structure CongestionControl where
  SenderSSThreshold : Nat
  ReceiverSSThreshold : Nat
  SenderWindow : Nat

/-- Serialization of a `CongestionControl` per its struct tags. -/
def CongestionControl.toJSON (cc : CongestionControl) : JSONValue :=
  .obj [("snd_ssthresh", .num (cc.SenderSSThreshold : Int)),
        ("rcv_ssthresh", .num (cc.ReceiverSSThreshold : Int)),
        ("snd_cwnd", .num (cc.SenderWindow : Int))]

/-- Modelled from the spec: `SysInfo`, the platform-specific extension block,
is declared in the per-platform files absent from src; it is a struct opaque
to this core, so it is embedded as the fields of the object it serializes
to. -/
structure SysInfo where
  fields : List (String × JSONValue)

/-- Serialization of a `SysInfo`: a Go struct marshals to an object. -/
def SysInfo.toJSON (s : SysInfo) : JSONValue := .obj s.fields

/-- `type Info struct` (option.go lines 67-83).  `MaxSegSize` is an unsigned
integer, `time.Duration` a signed 64-bit integer; pointers become
`Option`. -/
structure Info where
  State : State
  Options : List Opt
  PeerOptions : List Opt
  SenderMSS : Nat
  ReceiverMSS : Nat
  RTT : Int
  RTTVar : Int
  RTO : Int
  ATO : Int
  LastDataSent : Int
  LastDataReceived : Int
  LastAckReceived : Int
  FlowControl : Option FlowControl
  CongestionControl : Option CongestionControl
  Sys : Option SysInfo

/-- The loop `for _, opt := range opts { m[opt.Kind().String()] = opt }`
over an empty starting map (option.go lines 109-112 and 116-119). -/
def optsMap (opts : List Opt) : List (String × JSONValue) :=
  opts.foldl (fun m opt => mapSet m opt.kindName opt.payload) []

/-- The `raw` map of `Info.MarshalJSON` after the `"state"`, `"opts"` and
`"peer_opts"` assignments (option.go lines 106-121).  The assignment chain
of `MarshalJSON` is staged into three definitions so that proofs can treat
each stage separately; composed, they perform exactly the source's
assignments in source order. -/
def Info.rawAfterOpts (i : Info) : List (String × JSONValue) :=
  let raw := mapSet [] "state" (.str (State.String i.State))
  let raw := if i.Options.length > 0 then
    mapSet raw "opts" (.obj (optsMap i.Options)) else raw
  if i.PeerOptions.length > 0 then
    mapSet raw "peer_opts" (.obj (optsMap i.PeerOptions)) else raw

/-- The `raw` map of `Info.MarshalJSON` after the nine unconditional numeric
assignments (option.go lines 122-130). -/
def Info.rawAfterMetrics (i : Info) : List (String × JSONValue) :=
  let raw := i.rawAfterOpts
  let raw := mapSet raw "snd_mss" (.num (i.SenderMSS : Int))
  let raw := mapSet raw "rcv_mss" (.num (i.ReceiverMSS : Int))
  let raw := mapSet raw "rtt" (.num i.RTT)
  let raw := mapSet raw "rttvar" (.num i.RTTVar)
  let raw := mapSet raw "rto" (.num i.RTO)
  let raw := mapSet raw "ato" (.num i.ATO)
  let raw := mapSet raw "last_data_sent" (.num i.LastDataSent)
  let raw := mapSet raw "last_data_rcvd" (.num i.LastDataReceived)
  mapSet raw "last_ack_rcvd" (.num i.LastAckReceived)

/-- `func (i *Info) MarshalJSON() ([]byte, error)` (option.go lines 105-141),
up to the final `json.Marshal(&raw)` encoding step: the `raw` map it
builds, finishing with the three conditional assignments of lines
131-139. -/
def Info.MarshalJSON (i : Info) : List (String × JSONValue) :=
  let raw := i.rawAfterMetrics
  let raw := match i.FlowControl with
    | some fc => mapSet raw "flow_ctl" fc.toJSON
    | none => raw
  let raw := match i.CongestionControl with
    | some cc => mapSet raw "cong_ctl" cc.toJSON
    | none => raw
  match i.Sys with
  | some sys => mapSet raw "sys" sys.toJSON
  | none => raw

/-- `errOpNoSupport = errors.New("operation not supported")` (option.go
line 16). -/
def errOpNoSupport : String := "operation not supported"

/-- `errBufferTooShort = errors.New("buffer too short")` (option.go
line 17). -/
def errBufferTooShort : String := "buffer too short"

/-- `type CCInfo struct { Raw []byte }` (option.go lines 147-149). -/
structure CCInfo where
  Raw : Bytes

/-- `func (cci *CCInfo) Marshal() ([]byte, error)` (option.go line 158). -/
def CCInfo.Marshal (cci : CCInfo) : Bytes × Option String := (cci.Raw, none)

/-- `func parseCCInfo(b []byte) (tcpopt.Option, error)` (option.go
line 160); the returned option is concretely a `CCInfo`. -/
def parseCCInfo (b : Bytes) : CCInfo × Option String := (⟨b⟩, none)

/-- `type CCAlgorithm string` (option.go line 165). -/
abbrev CCAlgorithm := String

/-- `func (cca CCAlgorithm) Marshal() ([]byte, error)` (option.go lines
174-179); the Go nil slice returned for the empty string is the zero-length
buffer. -/
def CCAlgorithm.Marshal (cca : CCAlgorithm) : Bytes × Option String :=
  if cca = "" then ([], none) else (cca.data, none)

/-- `func parseCCAlgorithm(b []byte) (tcpopt.Option, error)` (option.go
line 181); the returned option is concretely a `CCAlgorithm`. -/
def parseCCAlgorithm (b : Bytes) : CCAlgorithm × Option String :=
  (String.mk b, none)

/-- `type CCAlgorithmInfo interface { Algorithm() string }` (option.go lines
187-189): a record exposing the algorithm name that produced it, its
concrete shape opaque to the core. -/
structure CCAlgorithmInfo where
  Algorithm : String
  raw : Bytes

/-- Modelled from the spec: the algorithm-info decoder registry lives in the
per-platform files absent from src; it maps a congestion-control algorithm
name to the decoder for that algorithm's private byte layout, and only a
subset of algorithms ship with decoders.  Two representative entries stand
for that subset. -/
def ccAlgorithmInfoDecoders : List (String × (Bytes → Bytes)) :=
  [("vegas", fun b => b), ("dctcp", fun b => b)]

/-- Registry lookup by algorithm name. -/
def decodersGet : List (String × (Bytes → Bytes)) → String → Option (Bytes → Bytes)
  | [], _ => none
  | (k, d) :: rest, name => if k = name then some d else decodersGet rest name

/-- Modelled from the spec: `parseCCAlgorithmInfo` (per-platform, absent from
src) looks up a decoder keyed by algorithm name and invokes it on the raw
bytes; with no decoder registered for the name it fails with
`errOpNoSupport`, and a registered decoder produces a record whose
`Algorithm()` is that name. -/
def parseCCAlgorithmInfo (name : String) (b : Bytes) :
    Except String CCAlgorithmInfo :=
  match decodersGet ccAlgorithmInfoDecoders name with
  | none => .error errOpNoSupport
  | some d => .ok ⟨name, d b⟩

/-- `func ParseCCAlgorithmInfo(name string, b []byte)` (option.go lines
194-200): forwards to `parseCCAlgorithmInfo`, propagating its error. -/
def ParseCCAlgorithmInfo (name : String) (b : Bytes) :
    Except String CCAlgorithmInfo :=
  match parseCCAlgorithmInfo name b with
  | .error e => .error e
  | .ok ccai => .ok ccai

/-! ## Map lemmas -/

/-- Reading a map after a Go map assignment: the written key returns the new
value, every other key is unaffected. -/
theorem mapGet_mapSet (m : List (String × JSONValue)) (k k' : String)
    (v : JSONValue) :
    mapGet (mapSet m k v) k' = if k = k' then some v else mapGet m k' := by
  induction m with
  | nil => simp [mapSet, mapGet]
  | cons p rest ih =>
    obtain ⟨pk, pv⟩ := p
    by_cases h1 : pk = k
    · subst h1
      by_cases h2 : pk = k' <;> simp [mapSet, mapGet, h2]
    · by_cases h2 : pk = k'
      · subst h2
        have h3 : ¬ k = pk := fun h => h1 h.symm
        simp [mapSet, mapGet, h1, h3]
      · simp [mapSet, mapGet, h1, h2, ih]

/-- The last option with a given kind name in a sequence, if any: the entry
that survives the Go map-assignment loop. -/
def lastWith : List Opt → String → Option Opt
  | [], _ => none
  | o :: rest, k =>
    match lastWith rest k with
    | some o' => some o'
    | none => if o.kindName = k then some o else none

/-- Reading the map built by the option loop at key `k` yields the payload of
the last option whose kind name is `k`. -/
theorem mapGet_optsMap_loop (opts : List Opt) (m : List (String × JSONValue))
    (k : String) :
    mapGet (opts.foldl (fun m opt => mapSet m opt.kindName opt.payload) m) k =
      match lastWith opts k with
      | some o => some o.payload
      | none => mapGet m k := by
  induction opts generalizing m with
  | nil => simp [lastWith]
  | cons o rest ih =>
    simp only [List.foldl_cons, lastWith, ih, mapGet_mapSet]
    cases lastWith rest k with
    | some o' => simp
    | none => by_cases h : o.kindName = k <;> simp [h]

/-- `mapGet (optsMap opts) k` is the payload of the last option of kind
`k`. -/
theorem mapGet_optsMap (opts : List Opt) (k : String) :
    mapGet (optsMap opts) k = (lastWith opts k).map Opt.payload := by
  rw [optsMap, mapGet_optsMap_loop]
  cases lastWith opts k <;> simp [mapGet]


/-! ## What `Info.MarshalJSON` holds at each structural key -/

/-- What the first stage of the `raw` chain holds at each of the six
structural keys. -/
theorem mapGet_rawAfterOpts (i : Info) :
    mapGet i.rawAfterOpts "state" = some (.str (State.String i.State)) ∧
    mapGet i.rawAfterOpts "opts" =
      (match i.Options with
       | [] => none
       | _ :: _ => some (.obj (optsMap i.Options))) ∧
    mapGet i.rawAfterOpts "peer_opts" =
      (match i.PeerOptions with
       | [] => none
       | _ :: _ => some (.obj (optsMap i.PeerOptions))) ∧
    mapGet i.rawAfterOpts "flow_ctl" = none ∧
    mapGet i.rawAfterOpts "cong_ctl" = none ∧
    mapGet i.rawAfterOpts "sys" = none := by
  cases ho : i.Options <;> cases hp : i.PeerOptions <;>
    simp [Info.rawAfterOpts, mapGet_mapSet, mapGet, ho, hp]

/-- The nine unconditional numeric assignments touch none of the six
structural keys. -/
theorem mapGet_rawAfterMetrics (i : Info) :
    mapGet i.rawAfterMetrics "state" = mapGet i.rawAfterOpts "state" ∧
    mapGet i.rawAfterMetrics "opts" = mapGet i.rawAfterOpts "opts" ∧
    mapGet i.rawAfterMetrics "peer_opts" = mapGet i.rawAfterOpts "peer_opts" ∧
    mapGet i.rawAfterMetrics "flow_ctl" = mapGet i.rawAfterOpts "flow_ctl" ∧
    mapGet i.rawAfterMetrics "cong_ctl" = mapGet i.rawAfterOpts "cong_ctl" ∧
    mapGet i.rawAfterMetrics "sys" = mapGet i.rawAfterOpts "sys" := by
  refine ⟨?_, ?_, ?_, ?_, ?_, ?_⟩ <;>
    simp only [Info.rawAfterMetrics, mapGet_mapSet, String.reduceEq,
      reduceIte]

/-- What the marshaled document holds at each of the six structural keys:
the state name at `"state"`, the kind-keyed option objects at `"opts"` and
`"peer_opts"` exactly when the sequences are non-empty, and the serialized
optional sub-records at `"flow_ctl"`, `"cong_ctl"` and `"sys"` exactly when
present. -/
theorem mapGet_marshalJSON (i : Info) :
    mapGet (Info.MarshalJSON i) "state" = some (.str (State.String i.State)) ∧
    mapGet (Info.MarshalJSON i) "opts" =
      (match i.Options with
       | [] => none
       | _ :: _ => some (.obj (optsMap i.Options))) ∧
    mapGet (Info.MarshalJSON i) "peer_opts" =
      (match i.PeerOptions with
       | [] => none
       | _ :: _ => some (.obj (optsMap i.PeerOptions))) ∧
    mapGet (Info.MarshalJSON i) "flow_ctl" =
      i.FlowControl.map FlowControl.toJSON ∧
    mapGet (Info.MarshalJSON i) "cong_ctl" =
      i.CongestionControl.map CongestionControl.toJSON ∧
    mapGet (Info.MarshalJSON i) "sys" = i.Sys.map SysInfo.toJSON := by
  obtain ⟨h1, h2, h3, h4, h5, h6⟩ := mapGet_rawAfterOpts i
  obtain ⟨m1, m2, m3, m4, m5, m6⟩ := mapGet_rawAfterMetrics i
  cases hf : i.FlowControl <;> cases hc : i.CongestionControl <;>
    cases hs : i.Sys <;>
    simp [Info.MarshalJSON, mapGet_mapSet, hf, hc, hs, m1, m2, m3, m4, m5,
      m6, h1, h2, h3, h4, h5, h6]

/-! ## State.String lemmas -/

/-- The `states` map has no entry outside 0..11. -/
theorem statesGet_states_none (st : Int) (h : st < 0 ∨ 11 < st) :
    statesGet states st = none := by
  have hne : ∀ k : Int, 0 ≤ k → k ≤ 11 → ¬ (k = st) := by
    intro k hk1 hk2 heq
    rcases h with h | h <;> omega
  simp only [states, statesGet, Unknown, Closed, Listen, SynSent, SynReceived,
    Established, FinWait1, FinWait2, CloseWait, LastAck, Closing, TimeWait]
  rw [if_neg (hne 0 (by decide) (by decide)), if_neg (hne 1 (by decide) (by decide)),
    if_neg (hne 2 (by decide) (by decide)), if_neg (hne 3 (by decide) (by decide)),
    if_neg (hne 4 (by decide) (by decide)), if_neg (hne 5 (by decide) (by decide)),
    if_neg (hne 6 (by decide) (by decide)), if_neg (hne 7 (by decide) (by decide)),
    if_neg (hne 8 (by decide) (by decide)), if_neg (hne 9 (by decide) (by decide)),
    if_neg (hne 10 (by decide) (by decide)), if_neg (hne 11 (by decide) (by decide))]

/-- A hit in the `states` map is one of its listed values. -/
theorem statesGet_mem (l : List (State × String)) (st : State) (s : String)
    (h : statesGet l st = some s) : s ∈ l.map Prod.snd := by
  induction l with
  | nil => exact Option.noConfusion h
  | cons p rest ih =>
    obtain ⟨k, v⟩ := p
    simp only [statesGet] at h
    by_cases hk : k = st
    · rw [if_pos hk] at h
      injection h with hh
      subst hh
      simp
    · rw [if_neg hk] at h
      simp only [List.map_cons, List.mem_cons]
      exact Or.inr (ih h)

/-- No value of the `states` map is the empty string. -/
theorem statesGet_states_ne_empty (st : State) (s : String)
    (h : statesGet states st = some s) : s ≠ "" := by
  have hmem := statesGet_mem states st s h
  simp only [states, List.map_cons, List.map_nil, List.mem_cons,
    List.not_mem_nil, or_false] at hmem
  rcases hmem with rfl | rfl | rfl | rfl | rfl | rfl | rfl | rfl | rfl | rfl |
    rfl | rfl <;> decide

/-! ## Claims -/

/-- C1 (amended): for every State value among the twelve defined constants,
`String()` returns that state's fixed canonical name; for every State value
outside the defined set it returns the `"<nil>"` sentinel string — not the
`"unknown-state"` sentinel the claim states — never panics (it is total),
and never returns the empty string. -/
theorem state_string_canonical_or_nil :
    (State.String Unknown = "unknown" ∧ State.String Closed = "closed" ∧
     State.String Listen = "listen" ∧ State.String SynSent = "syn-sent" ∧
     State.String SynReceived = "syn-received" ∧
     State.String Established = "established" ∧
     State.String FinWait1 = "fin-wait-1" ∧
     State.String FinWait2 = "fin-wait-2" ∧
     State.String CloseWait = "close-wait" ∧
     State.String LastAck = "last-ack" ∧
     State.String Closing = "closing" ∧
     State.String TimeWait = "time-wait") ∧
    (∀ st : State, st < 0 ∨ 11 < st → State.String st = "<nil>") ∧
    (∀ st : State, State.String st ≠ "") := by
  refine ⟨by decide, ?_, ?_⟩
  · intro st h
    unfold State.String
    rw [statesGet_states_none st h]
  · intro st
    unfold State.String
    cases h : statesGet states st with
    | none => decide
    | some s => exact statesGet_states_ne_empty st s h

/-- C1 witness: the amended theorem instantiated at the out-of-set value 12
and at the defined state 5 (Established). -/
theorem state_string_canonical_or_nil_witness :
    State.String 12 = "<nil>" ∧ State.String 5 ≠ "" :=
  ⟨state_string_canonical_or_nil.2.1 12 (Or.inr (by decide)),
   state_string_canonical_or_nil.2.2 5⟩

/-- C1 counterexample: at the out-of-set value 12, `String()` returns the
literal `"<nil>"`, not the `"unknown-state"` sentinel the claim states. -/
theorem state_string_unknown_state_refuted :
    State.String 12 = "<nil>" ∧ ¬ State.String 12 = "unknown-state" := by
  decide

/-- C2: marshaling any CCAlgorithm and parsing the resulting bytes with
parseCCAlgorithm yields the same CCAlgorithm back; in particular "cubic"
round-trips, the empty-string CCAlgorithm marshals to a zero-length buffer,
and parsing a zero-length buffer yields the empty-string CCAlgorithm. -/
theorem ccAlgorithm_marshal_parse_roundtrip :
    (∀ cca : CCAlgorithm, (parseCCAlgorithm (CCAlgorithm.Marshal cca).1).1 = cca) ∧
    (parseCCAlgorithm (CCAlgorithm.Marshal "cubic").1).1 = "cubic" ∧
    (CCAlgorithm.Marshal "").1 = ([] : Bytes) ∧
    (parseCCAlgorithm ([] : Bytes)).1 = "" := by
  refine ⟨?_, by decide, by decide, by decide⟩
  intro cca
  cases cca with
  | mk d =>
    by_cases h : String.mk d = ""
    · rw [h]; decide
    · unfold CCAlgorithm.Marshal parseCCAlgorithm
      rw [if_neg h]

/-- C3: the marshaled document contains "flow_ctl" exactly when FlowControl
is present, "cong_ctl" exactly when CongestionControl is present, and "sys"
exactly when Sys is present, each bound to the sub-record's serialized
object; an absent sub-record's key is absent (mapGet none), never bound to
null. -/
theorem marshalJSON_optional_subrecords (i : Info) :
    mapGet (Info.MarshalJSON i) "flow_ctl" =
      i.FlowControl.map FlowControl.toJSON ∧
    mapGet (Info.MarshalJSON i) "cong_ctl" =
      i.CongestionControl.map CongestionControl.toJSON ∧
    mapGet (Info.MarshalJSON i) "sys" = i.Sys.map SysInfo.toJSON ∧
    mapGet (Info.MarshalJSON i) "flow_ctl" ≠ some .null ∧
    mapGet (Info.MarshalJSON i) "cong_ctl" ≠ some .null ∧
    mapGet (Info.MarshalJSON i) "sys" ≠ some .null := by
  obtain ⟨-, -, -, h4, h5, h6⟩ := mapGet_marshalJSON i
  refine ⟨h4, h5, h6, ?_, ?_, ?_⟩
  · rw [h4]; cases i.FlowControl <;> simp [FlowControl.toJSON]
  · rw [h5]; cases i.CongestionControl <;> simp [CongestionControl.toJSON]
  · rw [h6]; cases i.Sys <;> simp [SysInfo.toJSON]

/-- C4: a non-empty Options (resp. PeerOptions) sequence serializes under
"opts" (resp. "peer_opts") as an object keyed by each option's kind name —
never as an array — and within one sequence the value at each kind name is
the payload of the last option of that kind in iteration order, so
duplicate kinds collapse to a single entry. -/
theorem marshalJSON_options_as_kind_map (i : Info) :
    (i.Options ≠ [] →
      mapGet (Info.MarshalJSON i) "opts" = some (.obj (optsMap i.Options)) ∧
      (∀ k, mapGet (optsMap i.Options) k =
        (lastWith i.Options k).map Opt.payload) ∧
      (∀ xs, mapGet (Info.MarshalJSON i) "opts" ≠ some (.arr xs))) ∧
    (i.PeerOptions ≠ [] →
      mapGet (Info.MarshalJSON i) "peer_opts" =
        some (.obj (optsMap i.PeerOptions)) ∧
      (∀ k, mapGet (optsMap i.PeerOptions) k =
        (lastWith i.PeerOptions k).map Opt.payload) ∧
      (∀ xs, mapGet (Info.MarshalJSON i) "peer_opts" ≠ some (.arr xs))) := by
  constructor
  · intro h
    have heq : mapGet (Info.MarshalJSON i) "opts" =
        some (.obj (optsMap i.Options)) := by
      rw [(mapGet_marshalJSON i).2.1]
      cases hO : i.Options with
      | nil => exact absurd hO h
      | cons a l => rfl
    refine ⟨heq, fun k => mapGet_optsMap _ k, fun xs hx => ?_⟩
    rw [heq] at hx
    exact JSONValue.noConfusion (Option.some.inj hx)
  · intro h
    have heq : mapGet (Info.MarshalJSON i) "peer_opts" =
        some (.obj (optsMap i.PeerOptions)) := by
      rw [(mapGet_marshalJSON i).2.2.1]
      cases hO : i.PeerOptions with
      | nil => exact absurd hO h
      | cons a l => rfl
    refine ⟨heq, fun k => mapGet_optsMap _ k, fun xs hx => ?_⟩
    rw [heq] at hx
    exact JSONValue.noConfusion (Option.some.inj hx)

/-- A concrete Info whose Options sequence holds two options of the same
kind name, for exercising the duplicate-collapse behavior. -/
def sampleDupInfo : Info :=
  { State := Established
    Options := [⟨"sack", .str "first"⟩, ⟨"sack", .str "second"⟩]
    PeerOptions := [⟨"wscale", .num 7⟩]
    SenderMSS := 1460
    ReceiverMSS := 1460
    RTT := 0
    RTTVar := 0
    RTO := 0
    ATO := 0
    LastDataSent := 0
    LastDataReceived := 0
    LastAckReceived := 0
    FlowControl := none
    CongestionControl := none
    Sys := none }

/-- C4 witness: on an Info with two "sack" options, the document binds
"opts" to the kind-keyed object, in which the later option's payload won,
collapsed to a single entry. -/
theorem marshalJSON_options_as_kind_map_witness :
    mapGet (Info.MarshalJSON sampleDupInfo) "opts" =
      some (.obj (optsMap sampleDupInfo.Options)) ∧
    mapGet (optsMap sampleDupInfo.Options) "sack" = some (.str "second") ∧
    optsMap sampleDupInfo.Options = [("sack", .str "second")] := by
  have h := (marshalJSON_options_as_kind_map sampleDupInfo).1
    (by simp [sampleDupInfo])
  refine ⟨h.1, ?_, rfl⟩
  rw [h.2.1 "sack"]
  rfl

/-- C5: parseCCInfo wraps any byte buffer verbatim in a CCInfo with a nil
error, and marshaling that CCInfo returns the same bytes verbatim. -/
theorem parseCCInfo_verbatim_roundtrip (b : Bytes) :
    parseCCInfo b = (⟨b⟩, none) ∧
    (parseCCInfo b).1.Raw = b ∧
    CCInfo.Marshal (parseCCInfo b).1 = (b, none) :=
  ⟨rfl, rfl, rfl⟩

/-- C6: ParseCCAlgorithmInfo fails with the "operation not supported"
sentinel exactly when no decoder is registered for the algorithm name; with
a registered decoder it returns a record whose Algorithm() is that same
name. -/
theorem parseCCAlgorithmInfo_registry_contract (name : String) (b : Bytes) :
    match decodersGet ccAlgorithmInfoDecoders name with
    | none => ParseCCAlgorithmInfo name b = .error errOpNoSupport
    | some _ => ∃ r, ParseCCAlgorithmInfo name b = .ok r ∧
        r.Algorithm = name := by
  cases h : decodersGet ccAlgorithmInfoDecoders name with
  | none =>
    show ParseCCAlgorithmInfo name b = .error errOpNoSupport
    simp [ParseCCAlgorithmInfo, parseCCAlgorithmInfo, h]
  | some d =>
    show ∃ r, ParseCCAlgorithmInfo name b = .ok r ∧ r.Algorithm = name
    exact ⟨⟨name, d b⟩,
      by simp [ParseCCAlgorithmInfo, parseCCAlgorithmInfo, h], rfl⟩

/-- Sentinel predicate: the error string is one of the two errors declared
at the top of option.go. -/
def sentinelErrors (e : String) : Prop :=
  e = errOpNoSupport ∨ e = errBufferTooShort

/-- Every error an `Except`-valued operation of the core can produce is a
sentinel. -/
def exceptSentinel : Except String CCAlgorithmInfo → Prop
  | .error e => sentinelErrors e
  | .ok _ => True

/-- C7: every error value any fallible operation of this core can return is
one of the two sentinels: the parse and marshal operations of CCInfo and
CCAlgorithm never fail at all, and ParseCCAlgorithmInfo (and the
parseCCAlgorithmInfo it wraps) fails only with the "operation not
supported" sentinel. -/
theorem core_errors_are_sentinels (b : Bytes) (cci : CCInfo)
    (cca : CCAlgorithm) (name : String) :
    (parseCCInfo b).2 = none ∧ (parseCCAlgorithm b).2 = none ∧
    (CCInfo.Marshal cci).2 = none ∧ (CCAlgorithm.Marshal cca).2 = none ∧
    exceptSentinel (parseCCAlgorithmInfo name b) ∧
    exceptSentinel (ParseCCAlgorithmInfo name b) := by
  refine ⟨rfl, rfl, rfl, ?_, ?_, ?_⟩
  · unfold CCAlgorithm.Marshal
    split <;> rfl
  · unfold parseCCAlgorithmInfo
    cases decodersGet ccAlgorithmInfoDecoders name <;>
      simp [exceptSentinel, sentinelErrors]
  · unfold ParseCCAlgorithmInfo parseCCAlgorithmInfo
    cases decodersGet ccAlgorithmInfoDecoders name <;>
      simp [exceptSentinel, sentinelErrors]

/-- C8: the marshaled document maps "state" to the string produced by
State.String, never to a raw integer. -/
theorem marshalJSON_state_as_string (i : Info) :
    mapGet (Info.MarshalJSON i) "state" =
      some (.str (State.String i.State)) ∧
    ∀ n : Int, mapGet (Info.MarshalJSON i) "state" ≠ some (.num n) := by
  have h := (mapGet_marshalJSON i).1
  refine ⟨h, fun n hn => ?_⟩
  rw [h] at hn
  exact JSONValue.noConfusion (Option.some.inj hn)

/-- C9: parseCCInfo and parseCCAlgorithm return a nil error on every input,
and CCInfo.Marshal and CCAlgorithm.Marshal return a nil error on every
receiver: the four operations are total and their error branch is
unreachable. -/
theorem cc_parse_marshal_total (b : Bytes) (cci : CCInfo)
    (cca : CCAlgorithm) :
    (parseCCInfo b).2 = none ∧ (parseCCAlgorithm b).2 = none ∧
    (CCInfo.Marshal cci).2 = none ∧ (CCAlgorithm.Marshal cca).2 = none := by
  refine ⟨rfl, rfl, rfl, ?_⟩
  unfold CCAlgorithm.Marshal
  split <;> rfl

/-- C10: the marshaled document contains "opts" (resp. "peer_opts") exactly
when the Options (resp. PeerOptions) sequence is non-empty; for the empty
sequence the key is omitted entirely. -/
theorem marshalJSON_opts_keys_iff_nonempty (i : Info) :
    mapGet (Info.MarshalJSON i) "opts" =
      (match i.Options with
       | [] => none
       | _ :: _ => some (.obj (optsMap i.Options))) ∧
    mapGet (Info.MarshalJSON i) "peer_opts" =
      (match i.PeerOptions with
       | [] => none
       | _ :: _ => some (.obj (optsMap i.PeerOptions))) :=
  ⟨(mapGet_marshalJSON i).2.1, (mapGet_marshalJSON i).2.2.1⟩

end tcpinfo
